import Mathlib

/-!
Verification development for the ai-rss-bridge repository.

The repository ships a React frontend (App.js, ApiKeyInput.js, ManageApiKeys.js)
together with documentation of its Flask backend (README.md, DEBUG.md,
UPDATE_INSTRUCTIONS.md).  The backend modules themselves (smart_scraper.py,
scheduler.py, database.py, ai_providers.py) are not part of the source tree
available here, so the core engine (fetch strategy chain, content cache,
credential pool, pattern store, update orchestrator) is modelled from the
specification; the frontend behaviour is embedded directly from the JS sources.

Machine integers do not occur: all counters and timestamps are natural numbers.
-/

namespace AiRssBridge

/-! ### Content Cache -/

/-- Modelled from the spec: the backend Content Cache module is not under src/.
A cache entry holds fully materialized content, the fetch timestamp and a
time-to-live; expiry is time-based and checked lazily on read. -/
structure CacheEntry where
  content : String
  fetchedAt : Nat
  ttl : Nat
deriving Repr, DecidableEq

abbrev Cache := List (String × CacheEntry)

/-- Modelled from the spec: put(key, content, ttl) writes a fresh immutable
entry under the normalized key, replacing any previous entry for that key. -/
def cachePut (c : Cache) (key content : String) (ttl now : Nat) : Cache :=
  (key, { content := content, fetchedAt := now, ttl := ttl }) ::
    c.filter (fun kv => kv.1 != key)

/-- Modelled from the spec: get(key) compares the current time to
fetchedAt + ttl; an expired entry is treated as a miss and lazily dropped.
Returns the looked-up content together with the cache after the read. -/
def cacheGet (c : Cache) (key : String) (now : Nat) : Option String × Cache :=
  match c.find? (fun kv => kv.1 == key) with
  | none => (none, c)
  | some kv =>
      if now < kv.2.fetchedAt + kv.2.ttl then (some kv.2.content, c)
      else (none, c.filter (fun kv => kv.1 != key))

/-! ### Credential Pool -/

/-- Modelled from the spec: the backend credential store is not under src/.
A record of a provider pool: identity (rotation position is its index in the
pool), failure streak counter and an optional disabled-until timestamp.  The
encrypted secret itself never enters the model: records are referenced by
index only. -/
structure ApiKeyRecord where
  keyId : Nat
  failureStreak : Nat
  disabledUntil : Option Nat
deriving Repr, DecidableEq

/-- Modelled from the spec: a record is inside its cool-down window when a
disabled-until timestamp is set and the current time has not reached it. -/
def withinCooldown (now : Nat) (r : ApiKeyRecord) : Bool :=
  match r.disabledUntil with
  | some t => decide (now < t)
  | none => false

/-- Modelled from the spec: a record is currently disabled when its failure
streak is at or past the fixed threshold and it is within its cool-down
window. -/
def isDisabled (threshold now : Nat) (r : ApiKeyRecord) : Bool :=
  decide (threshold ≤ r.failureStreak) && withinCooldown now r

/-- Modelled from the spec: report_outcome(success=false) increments the
failure streak and, upon crossing the threshold, sets disabled-until to the
end of the cool-down window; report_outcome(success=true) resets the streak
to zero. -/
def reportOutcome (threshold cooldown now : Nat) (r : ApiKeyRecord)
    (success : Bool) : ApiKeyRecord :=
  if success then { r with failureStreak := 0 }
  else
    { r with
        failureStreak := r.failureStreak + 1,
        disabledUntil :=
          if r.failureStreak + 1 = threshold then some (now + cooldown)
          else r.disabledUntil }

/-- Modelled from the spec: per-provider ordered set of keys with a round-robin
cursor. -/
structure CredentialPool where
  keys : List ApiKeyRecord
  rrIndex : Nat
deriving Repr, DecidableEq

inductive AcquireResult
  | acquired (index : Nat) (record : ApiKeyRecord)
  | exhaustedCredentials
deriving Repr, DecidableEq

/-- Modelled from the spec: scan the pool cyclically from the cursor, skipping
disabled records; the fuel bounds the scan to one full revolution. -/
def acquireAux (threshold now : Nat) (keys : List ApiKeyRecord) :
    Nat → Nat → Option (Nat × ApiKeyRecord)
  | _, 0 => none
  | start, fuel + 1 =>
      match keys[start % keys.length]? with
      | none => none
      | some r =>
          if isDisabled threshold now r then
            acquireAux threshold now keys (start + 1) fuel
          else some (start % keys.length, r)

/-- Modelled from the spec: acquire(provider) rotates round-robin over the
pool, skipping disabled records; if every key is disabled the call fails with
ExhaustedCredentials. -/
def acquire (threshold now : Nat) (p : CredentialPool) :
    AcquireResult × CredentialPool :=
  match acquireAux threshold now p.keys p.rrIndex p.keys.length with
  | none => (AcquireResult.exhaustedCredentials, p)
  | some (i, r) => (AcquireResult.acquired i r, { p with rrIndex := i + 1 })

/-- The key of the rotation scenario of the spec testable properties: a fresh
key that has failed twice at time 0, with threshold 2 and a cool-down of 10
time units. -/
def scenarioKey1 : ApiKeyRecord :=
  reportOutcome 2 10 0
    (reportOutcome 2 10 0
      { keyId := 1, failureStreak := 0, disabledUntil := none } false) false

/-- Three-key pool of the rotation scenario: key 1 has failed twice, keys 2
and 3 are healthy, the cursor points at key 1. -/
def scenarioPool : CredentialPool :=
  { keys := [scenarioKey1,
             { keyId := 2, failureStreak := 0, disabledUntil := none },
             { keyId := 3, failureStreak := 0, disabledUntil := none }],
    rrIndex := 0 }

/-- The same pool after every key has failed past the threshold. -/
def scenarioPoolAllDisabled : CredentialPool :=
  { keys := [scenarioKey1,
             { keyId := 2, failureStreak := 2, disabledUntil := some 10 },
             { keyId := 3, failureStreak := 2, disabledUntil := some 10 }],
    rrIndex := 0 }

/-! ### Fetch Strategy Chain -/

structure HttpResponse where
  status : Nat
  body : String
deriving Repr, DecidableEq

/-- Outcome of issuing one strategy request: the strategy either throws or
times out, or it yields an HTTP response. -/
inductive StrategyOutcome
  | threw
  | responded (r : HttpResponse)
deriving Repr, DecidableEq

/-- Modelled from the spec: HTTP status is success-class. -/
def successClass (s : Nat) : Bool :=
  decide (200 ≤ s) && decide (s < 300)

/-- Does the needle match at the head of the haystack. -/
def matchesAt : List Char → List Char → Bool
  | [], _ => true
  | _ :: _, [] => false
  | a :: as, b :: bs => a == b && matchesAt as bs

/-- Does the needle occur anywhere inside the haystack. -/
def hasSub (needle : List Char) : List Char → Bool
  | [] => matchesAt needle []
  | b :: bs => matchesAt needle (b :: bs) || hasSub needle bs

/-- Modelled from the spec: the challenge-page heuristic fires when the body
length is below a minimum threshold or a known interstitial marker occurs in
the body. -/
def isChallengeBody (minLen : Nat) (markers : List String) (body : String) : Bool :=
  decide (body.length < minLen) ||
    markers.any (fun m => hasSub m.toList body.toList)

/-- Modelled from the spec: a strategy result is valid when its status is
success-class and its body does not match the challenge-page heuristic. -/
def validResponse (minLen : Nat) (markers : List String) (r : HttpResponse) : Bool :=
  successClass r.status && !(isChallengeBody minLen markers r.body)

inductive FetchResult
  | success (body : String) (strategyUsed : String)
  | fetchFailed
deriving Repr, DecidableEq

/-- A strategy fails when it throws or its response fails a validity check. -/
def stratFails (minLen : Nat) (markers : List String) : StrategyOutcome → Bool
  | StrategyOutcome.threw => true
  | StrategyOutcome.responded r => !(validResponse minLen markers r)

/-- Modelled from the spec: the backend fetch strategy chain is not under src/
(its order is documented in DEBUG.md).  Strategies are evaluated in fixed
priority order by a single loop with early exit on the first result passing
both validity checks; on exhaustion the call fails with FetchFailed.  The
second component records, in order, the strategies actually invoked. -/
def fetchChain (minLen : Nat) (markers : List String) :
    List (String × StrategyOutcome) → FetchResult × List String
  | [] => (FetchResult.fetchFailed, [])
  | s :: rest =>
      match s.2 with
      | StrategyOutcome.threw =>
          ((fetchChain minLen markers rest).1,
            s.1 :: (fetchChain minLen markers rest).2)
      | StrategyOutcome.responded r =>
          if validResponse minLen markers r then
            (FetchResult.success r.body s.1, [s.1])
          else
            ((fetchChain minLen markers rest).1,
              s.1 :: (fetchChain minLen markers rest).2)

/-! ### Articles and content-hash merge -/

structure Article where
  title : String
  link : String
  description : String
  contentHash : Nat
deriving Repr, DecidableEq

def itemHashes (l : List Article) : List Nat := l.map (·.contentHash)

/-- Modelled from the spec: one step of the Reconciling merge; an incoming
item is appended only when no already-kept item carries its content hash. -/
def mergeStep (acc : List Article) (a : Article) : List Article :=
  if acc.any (fun b => b.contentHash == a.contentHash) then acc else acc ++ [a]

/-- Modelled from the spec: the Reconciling step of the backend orchestrator
is not under src/.  New items are merged into the stored item list by
content-hash dedup: existing items kept, new unique items appended, none
removed. -/
def mergeItems (old new : List Article) : List Article :=
  new.foldl mergeStep old

/-! ### Pattern Store -/

/-- Modelled from the spec: an extraction pattern carries a monotonically
increasing version number, a structural recipe, and an active flag; the store
keeps at most one active pattern per feed. -/
structure ExtractionPattern where
  version : Nat
  recipe : String
  active : Bool
deriving Repr, DecidableEq

def activePatterns (ps : List ExtractionPattern) : List ExtractionPattern :=
  ps.filter (·.active)

def activeCount (ps : List ExtractionPattern) : Nat :=
  (activePatterns ps).length

def patternVersions (ps : List ExtractionPattern) : List Nat :=
  ps.map (·.version)

/-- Version number of a freshly produced pattern: strictly above every
version already stored. -/
def nextVersion (ps : List ExtractionPattern) : Nat :=
  (patternVersions ps).foldl max 0 + 1

/-- Modelled from the spec: record a new recipe.  When it is to be activated
the swap is atomic: every old pattern is deactivated and the new version is
appended active; otherwise the recipe is stored inactive. -/
def recordRecipe (ps : List ExtractionPattern) (recipe : String)
    (activate : Bool) : List ExtractionPattern :=
  if activate then
    (ps.map fun p => { p with active := false }) ++
      [{ version := nextVersion ps, recipe := recipe, active := true }]
  else
    ps ++ [{ version := nextVersion ps, recipe := recipe, active := false }]

/-! ### Update Orchestrator -/

structure Feed where
  items : List Article
  patterns : List ExtractionPattern
  updatedAt : Nat
deriving Repr, DecidableEq

/-- Result of the fetch stage of one update cycle (cache hit and fresh fetch
both deliver content). -/
inductive FetchOut
  | failed
  | fetched (body : String)
deriving Repr, DecidableEq

/-- Result of the Smart Scraper stage. -/
inductive SmartOut
  | patternMismatch
  | extracted (items : List Article)
deriving Repr, DecidableEq

/-- Result of the AI Analysis stage. -/
inductive AiOut
  | exhausted
  | aiFailed
  | analyzed (items : List Article) (recipe : String)
deriving Repr, DecidableEq

inductive UpdateStatus
  | done
  | fetchFailed
  | aiAnalysisFailed
  | exhaustedCredentials
deriving Repr, DecidableEq

/-- The stage outcomes feeding one orchestrator update cycle. -/
structure UpdateInputs where
  fetch : FetchOut
  smart : SmartOut
  ai : AiOut
  forceAi : Bool
deriving Repr, DecidableEq

/-- Modelled from the spec: the AIAnalyzing branch of the state machine.
ExhaustedCredentials and AIAnalysisFailed are terminal with the feed
untouched; a successful analysis always records a new recipe, activates it
only when the item count meets the minimum threshold, and reconciles the
items. -/
def aiPath (minT now : Nat) (feed : Feed) (ai : AiOut) : UpdateStatus × Feed :=
  match ai with
  | AiOut.exhausted => (UpdateStatus.exhaustedCredentials, feed)
  | AiOut.aiFailed => (UpdateStatus.aiAnalysisFailed, feed)
  | AiOut.analyzed items recipe =>
      (UpdateStatus.done,
        { items := mergeItems feed.items items,
          patterns := recordRecipe feed.patterns recipe (decide (minT ≤ items.length)),
          updatedAt := now })

/-- Modelled from the spec: the backend update orchestrator is not under src/.
One update cycle of the state machine of section 4.6: fetch, then smart
scrape when an active pattern exists and force-AI was not requested, falling
back to AI analysis on pattern mismatch or insufficient items; fetch
exhaustion is terminal with the feed untouched. -/
def orchestratorUpdate (minT now : Nat) (feed : Feed) (inp : UpdateInputs) :
    UpdateStatus × Feed :=
  match inp.fetch with
  | FetchOut.failed => (UpdateStatus.fetchFailed, feed)
  | FetchOut.fetched _ =>
      if (activePatterns feed.patterns).isEmpty || inp.forceAi then
        aiPath minT now feed inp.ai
      else
        match inp.smart with
        | SmartOut.patternMismatch => aiPath minT now feed inp.ai
        | SmartOut.extracted items =>
            if minT ≤ items.length then
              (UpdateStatus.done,
                { items := mergeItems feed.items items,
                  patterns := feed.patterns,
                  updatedAt := now })
            else aiPath minT now feed inp.ai

/-- A sequence of update cycles, each driven by its own stage outcomes. -/
def runUpdates (minT now : Nat) (feed : Feed) (steps : List UpdateInputs) : Feed :=
  steps.foldl (fun fd inp => (orchestratorUpdate minT now fd inp).2) feed

/-! ### Frontend: key management modal (ManageApiKeys.js) -/

/-- One element of the keys array of the per-provider listing response, as
consumed by ManageApiKeys (src/unnamed/part_002): a masked form and the full
plaintext key. -/
structure KeyInfo where
  masked : String
  full : String
deriving Repr, DecidableEq

structure AllKeysResponse where
  keys : List KeyInfo
deriving Repr, DecidableEq

/-- Modelled from the spec: the backend masking of a stored key is not under
src/; only its shape (a short masked form distinct from the full key) matters
here. -/
def maskKey (s : String) : String := s.take 4 ++ "..."

/-- Modelled from the spec: the backend handler of GET
/api/config/api-keys/provider/all is not under src/.  Its response shape is
fixed by its in-repo caller ManageApiKeys.loadKeys and handleDelete
(src/unnamed/part_002 lines 39-55 and 61-84): for each stored plaintext key
the response carries a masked form and the full plaintext under the field
named full. -/
def allKeysResponse (storedKeys : List String) : AllKeysResponse :=
  { keys := storedKeys.map fun s => { masked := maskKey s, full := s } }

/-- Displayed text of entry number i of the manage-keys modal
(src/unnamed/part_002 lines 165-167). -/
def keyLineText (i : Nat) (k : KeyInfo) : String :=
  "Key #" ++ toString (i + 1) ++ ": " ++ k.masked

/-- The api_key field of the DELETE request body issued by handleDelete when
the delete button of an entry is pressed (src/unnamed/part_002 lines 61-71
and 170). -/
def deleteRequestApiKeyField (k : KeyInfo) : String := k.full

/-! ### Frontend: Generate RSS form (App.js) -/

/-- The slice of App state that drives the Generate RSS form
(src/unnamed/part_003). -/
structure GenState where
  savedProviders : List String
  aiProvider : String
  loading : Bool
  error : String
deriving Repr, DecidableEq

inductive ApiRequest
  | generate (url : String) (provider : String)
deriving Repr, DecidableEq

/-- App.handleSubmit (src/unnamed/part_003 lines 192-236), embedded up to the
point the POST to /api/generate is issued: the handler first clears the error
and sets loading, then, when the selected provider has no saved key, sets an
error message, clears loading and returns without issuing any request;
otherwise it issues the generate request.  The second component lists the
requests issued. -/
def handleSubmit (s : GenState) (url : String) : GenState × List ApiRequest :=
  let s1 : GenState := { s with error := "", loading := true }
  if s1.savedProviders.contains s1.aiProvider then
    (s1, [ApiRequest.generate url s1.aiProvider])
  else
    ({ s1 with
        error := "No API key saved for " ++ s1.aiProvider ++
          ". Please save it in Config tab first.",
        loading := false }, [])

/-- The disabled attribute of the Generate RSS submit button
(src/unnamed/part_003 lines 928-941). -/
def submitDisabled (s : GenState) : Bool :=
  s.loading || !(s.savedProviders.contains s.aiProvider)

/-! ## Theorems -/

/-- Claim C8: cache round-trip.  After put(key, content, ttl) at time now, a
get(key) strictly before now + ttl returns the content, and a get(key) after
now + ttl returns a miss. -/
theorem c8_cache_roundtrip (c : Cache) (key content : String) (ttl now t : Nat) :
    (t < now + ttl →
      (cacheGet (cachePut c key content ttl now) key t).1 = some content) ∧
    (now + ttl < t →
      (cacheGet (cachePut c key content ttl now) key t).1 = none) := by
  have hfind :
      (cachePut c key content ttl now).find? (fun kv => kv.1 == key)
        = some (key, { content := content, fetchedAt := now, ttl := ttl }) := by
    simp [cachePut]
  constructor
  · intro h
    simp [cacheGet, hfind, h]
  · intro h
    have h2 : ¬ t < now + ttl := by omega
    simp [cacheGet, hfind, h2]

theorem c8_witness :
    (cacheGet (cachePut [] "k" "v" 10 0) "k" 5).1 = some "v" :=
  (c8_cache_roundtrip [] "k" "v" 10 0 5).1 (by decide)

/-- Claim C7: report_outcome on failure increments the failure streak by one
and sets disabled-until exactly when the streak crosses the fixed threshold;
on success it resets the streak to zero; the only other pool operation,
acquire, leaves every record (hence every streak) unchanged. -/
theorem c7_report_outcome (threshold cooldown now : Nat) (r : ApiKeyRecord) :
    (reportOutcome threshold cooldown now r false).failureStreak
      = r.failureStreak + 1 ∧
    (reportOutcome threshold cooldown now r false).disabledUntil
      = (if r.failureStreak + 1 = threshold then some (now + cooldown)
         else r.disabledUntil) ∧
    (reportOutcome threshold cooldown now r true).failureStreak = 0 ∧
    (∀ p : CredentialPool, ((acquire threshold now p).2).keys = p.keys) := by
  refine ⟨rfl, rfl, rfl, ?_⟩
  intro p
  cases ha : acquireAux threshold now p.keys p.rrIndex p.keys.length with
  | none => simp [acquire, ha]
  | some ir =>
      obtain ⟨i, r0⟩ := ir
      simp [acquire, ha]

/-- Claim C10: when the selected provider has no saved API key, the submit
handler issues no generate request, records the error, clears the loading
flag, and the submit button is rendered disabled. -/
theorem c10_generate_guard (s : GenState) (url : String)
    (h : s.savedProviders.contains s.aiProvider = false) :
    (handleSubmit s url).2 = [] ∧
    (handleSubmit s url).1.loading = false ∧
    (handleSubmit s url).1.error =
      "No API key saved for " ++ s.aiProvider ++
        ". Please save it in Config tab first." ∧
    submitDisabled s = true := by
  have h2 : s.aiProvider ∉ s.savedProviders := by simpa using h
  refine ⟨?_, ?_, ?_, ?_⟩
  · simp [handleSubmit, h2]
  · simp [handleSubmit, h2]
  · simp [handleSubmit, h2]
  · simp [submitDisabled, h2]

theorem c10_witness :
    (handleSubmit ⟨["openai"], "claude", false, ""⟩ "https://x").2 = [] ∧
    (handleSubmit ⟨["openai"], "claude", false, ""⟩ "https://x").1.loading = false ∧
    (handleSubmit ⟨["openai"], "claude", false, ""⟩ "https://x").1.error =
      "No API key saved for " ++ "claude" ++
        ". Please save it in Config tab first." ∧
    submitDisabled ⟨["openai"], "claude", false, ""⟩ = true :=
  c10_generate_guard ⟨["openai"], "claude", false, ""⟩ "https://x" (by decide)

/-- Claim C2, counterexample: the per-provider key-listing response does
contain the full plaintext of a stored key, refuting the claim that no API
response carries a full decrypted key. -/
theorem c2_counterexample :
    ¬ (∀ k ∈ (allKeysResponse ["sk-plain-secret"]).keys,
        k.full ≠ "sk-plain-secret") := by
  intro h
  exact h { masked := maskKey "sk-plain-secret", full := "sk-plain-secret" }
    (by simp [allKeysResponse]) rfl

/-- Claim C2, amended: the on-screen key list depends only on the masked
form of each key (the rendered line is unchanged under any change of the
full secret), while the full plaintext keys of the listing response are
passed back verbatim as the delete request bodies. -/
theorem c2_masked_display :
    (∀ (i : Nat) (k : KeyInfo) (f : String),
        keyLineText i { k with full := f } = keyLineText i k) ∧
    (∀ stored : List String,
        (allKeysResponse stored).keys.map deleteRequestApiKeyField = stored) := by
  constructor
  · intro i k f
    rfl
  · intro stored
    have hcomp :
        (deleteRequestApiKeyField ∘ fun s =>
          ({ masked := maskKey s, full := s } : KeyInfo)) = id := rfl
    simp [allKeysResponse, List.map_map, hcomp]

/-- Claim C5: strategies are evaluated in fixed priority order with early
exit.  When the first strategy fails (throws, times out, or yields an invalid
response) and the second passes both validity checks, the chain reports the
second strategy as the one used and invokes no later strategy; when every
strategy fails the chain returns FetchFailed. -/
theorem c5_chain_order :
    (∀ (minLen : Nat) (markers : List String) (a b : String × StrategyOutcome)
        (rest : List (String × StrategyOutcome)) (rb : HttpResponse),
        stratFails minLen markers a.2 = true →
        b.2 = StrategyOutcome.responded rb →
        validResponse minLen markers rb = true →
        fetchChain minLen markers (a :: b :: rest) =
          (FetchResult.success rb.body b.1, [a.1, b.1])) ∧
    (∀ (minLen : Nat) (markers : List String)
        (strats : List (String × StrategyOutcome)),
        (∀ s ∈ strats, stratFails minLen markers s.2 = true) →
        (fetchChain minLen markers strats).1 = FetchResult.fetchFailed) := by
  constructor
  · intro minLen markers a b rest rb ha hb hv
    obtain ⟨an, ao⟩ := a
    obtain ⟨bn, bo⟩ := b
    have hb2 : bo = StrategyOutcome.responded rb := hb
    subst hb2
    have hbchain :
        fetchChain minLen markers
            ((bn, StrategyOutcome.responded rb) :: rest)
          = (FetchResult.success rb.body bn, [bn]) := by
      simp [fetchChain, hv]
    cases ao with
    | threw => simp [fetchChain, hv]
    | responded ra =>
        have hra : validResponse minLen markers ra = false := by
          simpa [stratFails] using ha
        simp [fetchChain, hra, hv]
  · intro minLen markers strats h
    induction strats with
    | nil => rfl
    | cons s rest ih =>
        obtain ⟨sn, so⟩ := s
        have hs := h (sn, so) (by simp)
        have hrest : ∀ x ∈ rest, stratFails minLen markers x.2 = true :=
          fun x hx => h x (by simp [hx])
        cases so with
        | threw => simp [fetchChain, ih hrest]
        | responded r =>
            have hr : validResponse minLen markers r = false := by
              simpa [stratFails] using hs
            simp [fetchChain, hr, ih hrest]

theorem c5_witness :
    fetchChain 1 []
        [("A", StrategyOutcome.threw),
         ("B", StrategyOutcome.responded { status := 200, body := "ok body" }),
         ("C", StrategyOutcome.responded { status := 200, body := "later" })] =
      (FetchResult.success "ok body" "B", ["A", "B"]) :=
  c5_chain_order.1 1 [] ("A", StrategyOutcome.threw)
    ("B", StrategyOutcome.responded { status := 200, body := "ok body" })
    [("C", StrategyOutcome.responded { status := 200, body := "later" })]
    { status := 200, body := "ok body" } (by decide) rfl (by decide)

theorem acquireAux_sound (threshold now : Nat) (keys : List ApiKeyRecord) :
    ∀ (fuel start i : Nat) (r : ApiKeyRecord),
      acquireAux threshold now keys start fuel = some (i, r) →
      keys[i]? = some r ∧ isDisabled threshold now r = false := by
  intro fuel
  induction fuel with
  | zero => intro start i r h; simp [acquireAux] at h
  | succ n ih =>
      intro start i r h
      rw [acquireAux] at h
      cases hk : keys[start % keys.length]? with
      | none => simp [hk] at h
      | some r0 =>
          cases hd : isDisabled threshold now r0 with
          | true =>
              simp [hk, hd] at h
              exact ih (start + 1) i r h
          | false =>
              simp [hk, hd] at h
              obtain ⟨h1, h2⟩ := h
              subst h1
              subst h2
              exact ⟨hk, hd⟩

theorem acquireAux_exhausted (threshold now : Nat) (keys : List ApiKeyRecord)
    (hall : ∀ r ∈ keys, isDisabled threshold now r = true) :
    ∀ fuel start, acquireAux threshold now keys start fuel = none := by
  intro fuel
  induction fuel with
  | zero => intro start; rfl
  | succ n ih =>
      intro start
      rw [acquireAux]
      cases hk : keys[start % keys.length]? with
      | none => simp [hk]
      | some r0 =>
          have hmem : r0 ∈ keys := List.getElem?_mem hk
          simp [hk, hall r0 hmem, ih]

/-- Claim C6: acquire rotates round-robin and never returns a record that is
currently disabled; in the 3-key scenario where key 1 has failed twice (past
the threshold of this pool), the next acquire skips key 1 and returns key 2,
key 1 becomes eligible again once its disable window has passed, and when
every key of the provider is disabled acquire returns ExhaustedCredentials. -/
theorem c6_rotation :
    (∀ (threshold now : Nat) (p : CredentialPool) (i : Nat)
        (r : ApiKeyRecord) (q : CredentialPool),
        acquire threshold now p = (AcquireResult.acquired i r, q) →
        isDisabled threshold now r = false ∧ p.keys[i]? = some r) ∧
    (scenarioKey1.failureStreak = 2 ∧ scenarioKey1.disabledUntil = some 10 ∧
      (acquire 2 5 scenarioPool).1 = AcquireResult.acquired 1
        { keyId := 2, failureStreak := 0, disabledUntil := none } ∧
      (acquire 2 10 scenarioPool).1 = AcquireResult.acquired 0 scenarioKey1 ∧
      (acquire 2 5 scenarioPoolAllDisabled).1
        = AcquireResult.exhaustedCredentials) ∧
    (∀ (threshold now : Nat) (p : CredentialPool),
        (∀ r ∈ p.keys, isDisabled threshold now r = true) →
        (acquire threshold now p).1 = AcquireResult.exhaustedCredentials) := by
  refine ⟨?_, by decide, ?_⟩
  · intro threshold now p i r q h
    unfold acquire at h
    cases ha : acquireAux threshold now p.keys p.rrIndex p.keys.length with
    | none => rw [ha] at h; simp at h
    | some ir =>
        obtain ⟨i0, r0⟩ := ir
        rw [ha] at h
        have h1 : AcquireResult.acquired i0 r0 = AcquireResult.acquired i r :=
          congrArg Prod.fst h
        injection h1 with hi hr
        have hs := acquireAux_sound threshold now p.keys p.keys.length
          p.rrIndex i0 r0 ha
        rw [← hi, ← hr]
        exact ⟨hs.2, hs.1⟩
  · intro threshold now p hall
    unfold acquire
    rw [acquireAux_exhausted threshold now p.keys hall p.keys.length p.rrIndex]

theorem c6_witness :
    isDisabled 2 5 { keyId := 2, failureStreak := 0, disabledUntil := none }
        = false ∧
      scenarioPool.keys[1]?
        = some { keyId := 2, failureStreak := 0, disabledUntil := none } :=
  c6_rotation.1 2 5 scenarioPool 1
    { keyId := 2, failureStreak := 0, disabledUntil := none }
    { scenarioPool with rrIndex := 2 } (by decide)

theorem hash_not_mem_of_any_false {acc : List Article} {a : Article}
    (hc : ¬ acc.any (fun b => b.contentHash == a.contentHash) = true) :
    a.contentHash ∉ itemHashes acc := by
  intro hmm
  simp only [itemHashes, List.mem_map] at hmm
  obtain ⟨b, hb, hbe⟩ := hmm
  exact hc (List.any_eq_true.mpr ⟨b, hb, by simp [hbe]⟩)

theorem foldl_mergeStep_ext (new : List Article) :
    ∀ acc : List Article, ∃ t, new.foldl mergeStep acc = acc ++ t ∧
      ∀ a ∈ t, a ∈ new ∧ a.contentHash ∉ itemHashes acc := by
  induction new with
  | nil => intro acc; exact ⟨[], by simp, by simp⟩
  | cons a as ih =>
      intro acc
      by_cases hc : acc.any (fun b => b.contentHash == a.contentHash) = true
      · obtain ⟨t, ht, hmem⟩ := ih acc
        have hstep : mergeStep acc a = acc := by simp [mergeStep, hc]
        refine ⟨t, ?_, ?_⟩
        · rw [List.foldl_cons, hstep]; exact ht
        · intro x hx
          exact ⟨List.mem_cons_of_mem a (hmem x hx).1, (hmem x hx).2⟩
      · obtain ⟨t, ht, hmem⟩ := ih (acc ++ [a])
        have hstep : mergeStep acc a = acc ++ [a] := by simp [mergeStep, hc]
        have hniq : a.contentHash ∉ itemHashes acc := hash_not_mem_of_any_false hc
        refine ⟨a :: t, ?_, ?_⟩
        · rw [List.foldl_cons, hstep, ht]; simp
        · intro x hx
          cases hx with
          | head => exact ⟨List.mem_cons_self a as, hniq⟩
          | tail _ hx2 =>
              refine ⟨List.mem_cons_of_mem a (hmem x hx2).1,
                fun hmm => (hmem x hx2).2 ?_⟩
              simp only [itemHashes, List.map_append, List.mem_append]
              exact Or.inl (by simpa [itemHashes] using hmm)

theorem nodup_append_single {α : Type} (l : List α) (x : α)
    (h : l.Nodup) (hx : x ∉ l) : (l ++ [x]).Nodup := by
  rw [List.nodup_append]
  refine ⟨h, List.nodup_singleton x, ?_⟩
  intro y hy hy2
  have hyx : y = x := by simpa using hy2
  subst hyx
  exact hx hy

theorem foldl_mergeStep_nodup (new : List Article) :
    ∀ acc : List Article, (itemHashes acc).Nodup →
      (itemHashes (new.foldl mergeStep acc)).Nodup := by
  induction new with
  | nil => intro acc h; simpa using h
  | cons a as ih =>
      intro acc h
      rw [List.foldl_cons]
      apply ih
      by_cases hc : acc.any (fun b => b.contentHash == a.contentHash) = true
      · simpa [mergeStep, hc] using h
      · have hniq := hash_not_mem_of_any_false hc
        have hstep : mergeStep acc a = acc ++ [a] := by simp [mergeStep, hc]
        rw [hstep]
        have hmap : itemHashes (acc ++ [a]) = itemHashes acc ++ [a.contentHash] := by
          simp [itemHashes]
        rw [hmap]
        exact nodup_append_single _ _ h hniq

/-- Every update cycle ends in one of five shapes: one of the three failure
outcomes with the feed untouched, a smart-path success, or an AI-path
success. -/
theorem orchestratorUpdate_cases (minT now : Nat) (feed : Feed)
    (inp : UpdateInputs) :
    orchestratorUpdate minT now feed inp = (UpdateStatus.fetchFailed, feed) ∨
    orchestratorUpdate minT now feed inp
      = (UpdateStatus.exhaustedCredentials, feed) ∨
    orchestratorUpdate minT now feed inp
      = (UpdateStatus.aiAnalysisFailed, feed) ∨
    (∃ items, orchestratorUpdate minT now feed inp
      = (UpdateStatus.done,
          { items := mergeItems feed.items items,
            patterns := feed.patterns, updatedAt := now })) ∨
    (∃ items recipe, orchestratorUpdate minT now feed inp
      = (UpdateStatus.done,
          { items := mergeItems feed.items items,
            patterns := recordRecipe feed.patterns recipe
              (decide (minT ≤ items.length)),
            updatedAt := now })) := by
  obtain ⟨f, s, a, fa⟩ := inp
  cases f with
  | failed => exact Or.inl rfl
  | fetched body =>
      have hai : aiPath minT now feed a
            = (UpdateStatus.exhaustedCredentials, feed) ∨
          aiPath minT now feed a = (UpdateStatus.aiAnalysisFailed, feed) ∨
          ∃ items recipe, aiPath minT now feed a
            = (UpdateStatus.done,
                { items := mergeItems feed.items items,
                  patterns := recordRecipe feed.patterns recipe
                    (decide (minT ≤ items.length)),
                  updatedAt := now }) := by
        cases a with
        | exhausted => exact Or.inl rfl
        | aiFailed => exact Or.inr (Or.inl rfl)
        | analyzed items recipe => exact Or.inr (Or.inr ⟨items, recipe, rfl⟩)
      by_cases hcond : (((activePatterns feed.patterns).isEmpty || fa) = true)
      · have hred : orchestratorUpdate minT now feed
            ⟨FetchOut.fetched body, s, a, fa⟩ = aiPath minT now feed a := by
          simp [orchestratorUpdate, hcond]
        rcases hai with h | h | ⟨items, recipe, h⟩
        · exact Or.inr (Or.inl (hred.trans h))
        · exact Or.inr (Or.inr (Or.inl (hred.trans h)))
        · exact Or.inr (Or.inr (Or.inr (Or.inr ⟨items, recipe, hred.trans h⟩)))
      · cases s with
        | patternMismatch =>
            have hred : orchestratorUpdate minT now feed
                ⟨FetchOut.fetched body, SmartOut.patternMismatch, a, fa⟩
                  = aiPath minT now feed a := by
              simp [orchestratorUpdate, hcond]
            rcases hai with h | h | ⟨items, recipe, h⟩
            · exact Or.inr (Or.inl (hred.trans h))
            · exact Or.inr (Or.inr (Or.inl (hred.trans h)))
            · exact Or.inr (Or.inr (Or.inr (Or.inr
                ⟨items, recipe, hred.trans h⟩)))
        | extracted items =>
            by_cases hth : minT ≤ items.length
            · refine Or.inr (Or.inr (Or.inr (Or.inl ⟨items, ?_⟩)))
              simp [orchestratorUpdate, hcond, hth]
            · have hred : orchestratorUpdate minT now feed
                  ⟨FetchOut.fetched body, SmartOut.extracted items, a, fa⟩
                    = aiPath minT now feed a := by
                simp [orchestratorUpdate, hcond, hth]
              rcases hai with h | h | ⟨items2, recipe, h⟩
              · exact Or.inr (Or.inl (hred.trans h))
              · exact Or.inr (Or.inr (Or.inl (hred.trans h)))
              · exact Or.inr (Or.inr (Or.inr (Or.inr
                  ⟨items2, recipe, hred.trans h⟩)))

/-- Claim C1: the content-hash merge keeps every existing item, removes none
and appends only items whose hash is not already stored; hence every single
update cycle only extends the stored item list, and over any sequence of
update cycles the stored item count never decreases. -/
theorem c1_items_monotone :
    (∀ (old new : List Article), ∃ t, mergeItems old new = old ++ t ∧
        ∀ a ∈ t, a ∈ new ∧ a.contentHash ∉ itemHashes old) ∧
    (∀ (minT now : Nat) (feed : Feed) (inp : UpdateInputs),
        ∃ t, (orchestratorUpdate minT now feed inp).2.items = feed.items ++ t ∧
          ∀ a ∈ t, a.contentHash ∉ itemHashes feed.items) ∧
    (∀ (minT now : Nat) (feed : Feed) (steps : List UpdateInputs),
        feed.items.length ≤ (runUpdates minT now feed steps).items.length) := by
  have hext : ∀ (minT now : Nat) (feed : Feed) (inp : UpdateInputs),
      ∃ t, (orchestratorUpdate minT now feed inp).2.items = feed.items ++ t ∧
        ∀ a ∈ t, a.contentHash ∉ itemHashes feed.items := by
    intro minT now feed inp
    rcases orchestratorUpdate_cases minT now feed inp with
      hc | hc | hc | ⟨items, hc⟩ | ⟨items, recipe, hc⟩
    · exact ⟨[], by rw [hc]; simp, by simp⟩
    · exact ⟨[], by rw [hc]; simp, by simp⟩
    · exact ⟨[], by rw [hc]; simp, by simp⟩
    · obtain ⟨t, ht, hmem⟩ := foldl_mergeStep_ext items feed.items
      exact ⟨t, by rw [hc]; exact ht, fun a ha => (hmem a ha).2⟩
    · obtain ⟨t, ht, hmem⟩ := foldl_mergeStep_ext items feed.items
      exact ⟨t, by rw [hc]; exact ht, fun a ha => (hmem a ha).2⟩
  refine ⟨?_, hext, ?_⟩
  · intro old new
    exact foldl_mergeStep_ext new old
  · intro minT now feed steps
    induction steps generalizing feed with
    | nil => exact le_refl _
    | cons s rest ih =>
        have h1 : feed.items.length
            ≤ ((orchestratorUpdate minT now feed s).2).items.length := by
          obtain ⟨t, ht, _⟩ := hext minT now feed s
          rw [ht]
          simp
        exact le_trans h1 (ih ((orchestratorUpdate minT now feed s).2))

/-- Claim C3: an update cycle that ends in FetchFailed, AIAnalysisFailed or
ExhaustedCredentials leaves the feed item set completely unchanged. -/
theorem c3_failure_atomicity (minT now : Nat) (feed : Feed) (inp : UpdateInputs)
    (h : (orchestratorUpdate minT now feed inp).1 = UpdateStatus.fetchFailed ∨
         (orchestratorUpdate minT now feed inp).1 = UpdateStatus.aiAnalysisFailed ∨
         (orchestratorUpdate minT now feed inp).1
           = UpdateStatus.exhaustedCredentials) :
    (orchestratorUpdate minT now feed inp).2.items = feed.items := by
  rcases orchestratorUpdate_cases minT now feed inp with
    hc | hc | hc | ⟨items, hc⟩ | ⟨items, recipe, hc⟩
  · rw [hc]
  · rw [hc]
  · rw [hc]
  · rw [hc] at h; simp at h
  · rw [hc] at h; simp at h

theorem c3_witness :
    (orchestratorUpdate 1 0 ⟨[⟨"t", "l", "d", 7⟩], [], 0⟩
        ⟨FetchOut.failed, SmartOut.patternMismatch, AiOut.aiFailed, false⟩).2.items
      = [⟨"t", "l", "d", 7⟩] :=
  c3_failure_atomicity 1 0 ⟨[⟨"t", "l", "d", 7⟩], [], 0⟩
    ⟨FetchOut.failed, SmartOut.patternMismatch, AiOut.aiFailed, false⟩
    (Or.inl (by decide))

/-- Claim C4: within a feed, content hashes stay pairwise distinct: one
update cycle, and any sequence of update cycles, preserve the no-duplicate
invariant of the stored item hashes. -/
theorem c4_hash_nodup :
    (∀ (minT now : Nat) (feed : Feed) (inp : UpdateInputs),
        (itemHashes feed.items).Nodup →
        (itemHashes (orchestratorUpdate minT now feed inp).2.items).Nodup) ∧
    (∀ (minT now : Nat) (feed : Feed) (steps : List UpdateInputs),
        (itemHashes feed.items).Nodup →
        (itemHashes (runUpdates minT now feed steps).items).Nodup) := by
  have hstep : ∀ (minT now : Nat) (feed : Feed) (inp : UpdateInputs),
      (itemHashes feed.items).Nodup →
      (itemHashes (orchestratorUpdate minT now feed inp).2.items).Nodup := by
    intro minT now feed inp h
    rcases orchestratorUpdate_cases minT now feed inp with
      hc | hc | hc | ⟨items, hc⟩ | ⟨items, recipe, hc⟩
    · rw [hc]; exact h
    · rw [hc]; exact h
    · rw [hc]; exact h
    · rw [hc]; exact foldl_mergeStep_nodup items feed.items h
    · rw [hc]; exact foldl_mergeStep_nodup items feed.items h
  refine ⟨hstep, ?_⟩
  intro minT now feed steps
  induction steps generalizing feed with
  | nil => intro h; exact h
  | cons s rest ih =>
      intro h
      exact ih ((orchestratorUpdate minT now feed s).2) (hstep minT now feed s h)

theorem c4_witness :
    (itemHashes (orchestratorUpdate 1 0 ⟨[], [], 0⟩
        ⟨FetchOut.failed, SmartOut.patternMismatch, AiOut.aiFailed,
          false⟩).2.items).Nodup :=
  c4_hash_nodup.1 1 0 ⟨[], [], 0⟩
    ⟨FetchOut.failed, SmartOut.patternMismatch, AiOut.aiFailed, false⟩
    (by decide)

theorem activePatterns_deactivate (ps : List ExtractionPattern) :
    activePatterns (ps.map fun p => { p with active := false }) = [] := by
  induction ps with
  | nil => rfl
  | cons p ps ih => simp [activePatterns, List.filter_cons, ih]

theorem activePatterns_recordRecipe_false (ps : List ExtractionPattern)
    (r : String) :
    activePatterns (recordRecipe ps r false) = activePatterns ps := by
  simp [recordRecipe, activePatterns, List.filter_append]

theorem activePatterns_recordRecipe_true (ps : List ExtractionPattern)
    (r : String) :
    activePatterns (recordRecipe ps r true)
      = [{ version := nextVersion ps, recipe := r, active := true }] := by
  have h := activePatterns_deactivate ps
  simp only [activePatterns] at h ⊢
  simp [recordRecipe, List.filter_append, h]

theorem activeCount_recordRecipe (ps : List ExtractionPattern) (r : String)
    (b : Bool) (h : activeCount ps ≤ 1) :
    activeCount (recordRecipe ps r b) ≤ 1 := by
  cases b with
  | false => simpa [activeCount, activePatterns_recordRecipe_false] using h
  | true => simp [activeCount, activePatterns_recordRecipe_true]

theorem base_le_foldl_max (l : List Nat) : ∀ b, b ≤ l.foldl max b := by
  induction l with
  | nil => intro b; exact le_refl b
  | cons a as ih =>
      intro b
      exact le_trans (le_max_left b a) (ih (max b a))

theorem mem_le_foldl_max (l : List Nat) : ∀ b x, x ∈ l → x ≤ l.foldl max b := by
  induction l with
  | nil => intro b x hx; cases hx
  | cons a as ih =>
      intro b x hx
      cases hx with
      | head => exact le_trans (le_max_right b a) (base_le_foldl_max as (max b a))
      | tail _ h2 => exact ih (max b a) x h2

theorem mem_patternVersions_lt_next {ps : List ExtractionPattern} {w : Nat}
    (hw : w ∈ patternVersions ps) : w < nextVersion ps := by
  have h := mem_le_foldl_max (patternVersions ps) 0 w hw
  simpa [nextVersion] using Nat.lt_succ_of_le h

theorem patternVersions_recordRecipe (ps : List ExtractionPattern)
    (r : String) (b : Bool) :
    patternVersions (recordRecipe ps r b)
      = patternVersions ps ++ [nextVersion ps] := by
  cases b with
  | false => simp [recordRecipe, patternVersions]
  | true =>
      simp only [recordRecipe, if_pos, patternVersions, List.map_append,
        List.map_map]
      rfl

/-- Claim C9: each update cycle preserves the at-most-one-active-pattern
invariant; any version present after an update that was not present before
is strictly above every previously stored version; and an AI analysis below
the minimum item threshold records a new recipe without changing the set of
active patterns. -/
theorem c9_pattern_versioning :
    (∀ (minT now : Nat) (feed : Feed) (inp : UpdateInputs),
        activeCount feed.patterns ≤ 1 →
        activeCount (orchestratorUpdate minT now feed inp).2.patterns ≤ 1) ∧
    (∀ (minT now : Nat) (feed : Feed) (inp : UpdateInputs) (v : Nat),
        v ∈ patternVersions (orchestratorUpdate minT now feed inp).2.patterns →
        v ∉ patternVersions feed.patterns →
        ∀ w ∈ patternVersions feed.patterns, w < v) ∧
    (∀ (minT now : Nat) (feed : Feed) (items : List Article) (recipe : String),
        items.length < minT →
        activePatterns
            (aiPath minT now feed (AiOut.analyzed items recipe)).2.patterns
          = activePatterns feed.patterns ∧
        (aiPath minT now feed (AiOut.analyzed items recipe)).2.patterns.length
          = feed.patterns.length + 1) := by
  refine ⟨?_, ?_, ?_⟩
  · intro minT now feed inp h
    rcases orchestratorUpdate_cases minT now feed inp with
      hc | hc | hc | ⟨items, hc⟩ | ⟨items, recipe, hc⟩
    · rw [hc]; exact h
    · rw [hc]; exact h
    · rw [hc]; exact h
    · rw [hc]; exact h
    · rw [hc]; exact activeCount_recordRecipe _ _ _ h
  · intro minT now feed inp v hv hnv w hw
    rcases orchestratorUpdate_cases minT now feed inp with
      hc | hc | hc | ⟨items, hc⟩ | ⟨items, recipe, hc⟩
    · rw [hc] at hv; exact absurd hv hnv
    · rw [hc] at hv; exact absurd hv hnv
    · rw [hc] at hv; exact absurd hv hnv
    · rw [hc] at hv; exact absurd hv hnv
    · rw [hc] at hv
      have hv1 : v ∈ patternVersions (recordRecipe feed.patterns recipe
          (decide (minT ≤ items.length))) := hv
      rw [patternVersions_recordRecipe] at hv1
      rcases List.mem_append.mp hv1 with h1 | h1
      · exact absurd h1 hnv
      · have hv2 : v = nextVersion feed.patterns := by simpa using h1
        subst hv2
        exact mem_patternVersions_lt_next hw
  · intro minT now feed items recipe h
    have hdec : decide (minT ≤ items.length) = false :=
      decide_eq_false (Nat.not_le.mpr h)
    constructor
    · simp [aiPath, hdec, activePatterns_recordRecipe_false]
    · simp [aiPath, hdec, recordRecipe]

theorem c9_witness :
    activePatterns (aiPath 2 0 ⟨[], [], 0⟩
        (AiOut.analyzed [⟨"t", "l", "d", 1⟩] "r")).2.patterns
      = activePatterns (⟨[], [], 0⟩ : Feed).patterns ∧
    (aiPath 2 0 ⟨[], [], 0⟩
        (AiOut.analyzed [⟨"t", "l", "d", 1⟩] "r")).2.patterns.length
      = (⟨[], [], 0⟩ : Feed).patterns.length + 1 :=
  c9_pattern_versioning.2.2 2 0 ⟨[], [], 0⟩ [⟨"t", "l", "d", 1⟩] "r" (by decide)

end AiRssBridge
